import Mathlib

/-!
Verification of the scraping pipeline in src/data/scraping.py.

The Python module is shallowly embedded below.  HTML documents are modelled
as a tree of elements and text nodes; BeautifulSoup's recursive searches
(find_all, find) become preorder traversals of that tree; the HTTP layer is
an oracle of type String → Option Html where none models a fetch failure or
a raised exception inside the try block; Python dicts become association
lists with Python's insert-or-overwrite assignment; str.strip becomes
whitespace trimming on both ends.  The batching, chunking, counter and
file-naming logic of scrape_apartments and process_urls is embedded as pure
functions and a small state-trace model for the shared counters.
-/

namespace RentScrape

/-! HTML document model -/

mutual

inductive Html where
  | elem (tag : String) (attrs : List (String × String)) (children : HtmlList)
  | text (s : String)
deriving DecidableEq

inductive HtmlList where
  | nil
  | cons (h : Html) (t : HtmlList)
deriving DecidableEq

end

def HtmlList.ofList : List Html → HtmlList
  | [] => .nil
  | h :: t => .cons h (HtmlList.ofList t)

mutual

/-- All nodes of a subtree in document (preorder) order: the node itself
followed by the nodes of its children. -/
def nodesOf : Html → List Html
  | .text s => [.text s]
  | .elem t a c => .elem t a c :: descList c

def descList : HtmlList → List Html
  | .nil => []
  | .cons h t => nodesOf h ++ descList t

end

/-- The descendants of a node, excluding the node itself, in document order.
BeautifulSoup's find_all on a tag searches exactly these. -/
def descendants : Html → List Html
  | .text _ => []
  | .elem _ _ c => descList c

mutual

/-- The text property of BeautifulSoup: concatenation of all string
descendants in document order. -/
def textContent : Html → String
  | .text s => s
  | .elem _ _ c => textList c

def textList : HtmlList → String
  | .nil => ""
  | .cons h t => textContent h ++ textList t

end

/-- Attribute lookup on an element; none both for a text node and for a
missing attribute (where Python raises KeyError on subscription). -/
def getAttr (n : Html) (key : String) : Option String :=
  match n with
  | .elem _ attrs _ => (attrs.find? (fun p => p.1 == key)).map (fun p => p.2)
  | .text _ => none

def tagOf : Html → String
  | .elem t _ _ => t
  | .text _ => ""

def isTag (n : Html) (t : String) : Bool := tagOf n == t

/-- Split a class attribute value at spaces into the element's class
names (BeautifulSoup's multi-valued class attribute). -/
def splitOnSpaceAux : List Char → List Char → List String
  | [], acc => [String.mk acc.reverse]
  | c :: rest, acc =>
    if c = ' ' then String.mk acc.reverse :: splitOnSpaceAux rest []
    else splitOnSpaceAux rest (c :: acc)

def splitOnSpace (s : String) : List String := splitOnSpaceAux s.data []

/-- BeautifulSoup class_ matching: the query matches a class attribute value
if it equals the whole attribute string or one of its space-separated
class names. -/
def classMatches (attrVal query : String) : Bool :=
  query == attrVal || (splitOnSpace attrVal).contains query

def hasClass (n : Html) (query : String) : Bool :=
  match getAttr n "class" with
  | some v => classMatches v query
  | none => false

/-- find_all with a predicate: all matching descendants in document order. -/
def findAll (p : Html → Bool) (n : Html) : List Html :=
  (descendants n).filter p

/-- Python str.strip(): remove leading and trailing whitespace. -/
def pyStrip (s : String) : String :=
  String.mk (((s.data.dropWhile Char.isWhitespace).reverse.dropWhile Char.isWhitespace).reverse)

/-! Python dict model

Dicts are association lists with unique keys; assignment overwrites the
value in place when the key is present and appends otherwise, exactly
Python's insertion-order semantics. -/

abbrev Dict (α : Type) : Type := List (String × α)

/-- Python d.get(k) and d[k] on a dict with unique keys: the value at the
key, if present. -/
def dget : Dict α → String → Option α
  | [], _ => none
  | p :: rest, k => if p.1 == k then some p.2 else dget rest k

def dinsert : Dict α → String → α → Dict α
  | [], k, v => [(k, v)]
  | p :: rest, k, v => if p.1 == k then (k, v) :: rest else p :: dinsert rest k v

def dkeys (d : Dict α) : List String := List.map (fun p => p.1) d

/-! get_listings_page (scraping.py lines 13-30) -/

/-- The anchors selected by soup.find_all with tag a and attribute
data-cy equal to listing-item-link. -/
def markerAnchor (n : Html) : Bool :=
  isTag n "a" && (getAttr n "data-cy" == some "listing-item-link")

/-- The list comprehension of get_listings_page: the base URL concatenated
with each anchor's href; none as soon as one anchor has no href attribute
(Python raises KeyError there). -/
def collectHrefs : List Html → Option (List String)
  | [] => some []
  | link :: rest =>
    match getAttr link "href" with
    | none => none
    | some h => (collectHrefs rest).map (fun hs => ("https://www.otodom.pl/" ++ h) :: hs)

/-- get_listings_page: fetch the page, collect all marker anchors and
return the base URL concatenated with each href.  A fetch failure, or a
marker anchor without an href attribute (KeyError inside the list
comprehension), lands in the blanket except handler, which returns []. -/
def get_listings_page (fetch : String → Option Html) (page_url : String) : List String :=
  match fetch page_url with
  | none => []
  | some soup =>
    match collectHrefs (findAll markerAnchor soup) with
    | none => []
    | some urls2 => urls2

/-! extract_label_value_pairs (scraping.py lines 32-57) -/

def containersOf (soup : Html) (container_class : String) : List Html :=
  findAll (fun n => isTag n "div" && hasClass n container_class) soup

def paragraphsOf (container : Html) : List Html :=
  findAll (fun n => isTag n "p") container

/-- The value spans of a paragraph: descendant span elements with class
css-axw7ok. -/
def valueSpans (p_element : Html) : List Html :=
  findAll (fun n => isTag n "span" && hasClass n "css-axw7ok") p_element

def extract_spans_from_p (p_element : Html) : List String :=
  (valueSpans p_element).map (fun s => pyStrip (textContent s))

/-- The body of the container loop of extract_label_value_pairs: with
exactly two paragraphs whose first trimmed text is a wanted label, yield
the label paired with the joined span texts (if any span exists) or the
second paragraph's trimmed text; otherwise yield nothing. -/
def containerContribution (labels_to_find : List String) (container : Html) :
    Option (String × String) :=
  match paragraphsOf container with
  | [p0, p1] =>
    let label := pyStrip (textContent p0)
    if labels_to_find.contains label then
      let spans := valueSpans p1
      let value :=
        if spans.isEmpty then pyStrip (textContent p1)
        else String.intercalate "; " (spans.map (fun s => pyStrip (textContent s)))
      some (label, value)
    else none
  | _ => none

def dstep (labels_to_find : List String) (results : Dict String) (container : Html) :
    Dict String :=
  match containerContribution labels_to_find container with
  | some kv => dinsert results kv.1 kv.2
  | none => results

def extract_label_value_pairs (soup : Html) (labels_to_find : List String)
    (container_class : String) : Dict String :=
  (containersOf soup container_class).foldl (dstep labels_to_find) []

/-! get_listing_details (scraping.py lines 59-101) -/

/-- get_listing_details: on a successful fetch, build the record starting
from the url field, then one field per div_class_mapping entry (trimmed
text of the first element whose class matches the selector, else None),
then one field per label_mapping entry looked up in the label-value map.
On any fetch failure the except handler returns an empty record. -/
def get_listing_details (fetch : String → Option Html) (listing_url : String)
    (div_class_mapping label_mapping : Dict String) : Dict (Option String) :=
  match fetch listing_url with
  | none => []
  | some soup =>
    let details : Dict (Option String) := [("url", some listing_url)]
    let details := div_class_mapping.foldl
      (fun d fs =>
        dinsert d fs.1
          ((findAll (fun n => hasClass n fs.2) soup).head?.map
            (fun e => pyStrip (textContent e)))) details
    let label_values := extract_label_value_pairs soup
      (List.map (fun p => p.2) label_mapping) "css-t7cajz e15n0fyo1"
    label_mapping.foldl (fun d fl => dinsert d fl.1 (dget label_values fl.2)) details

/-! URL collection and batching (scrape_apartments, lines 103-155) -/

/-- unique_urls = list(set(all_urls)): deduplication by exact string
equality; the model keeps first occurrences (Python's set order is
arbitrary and the spec fixes no order). -/
def uniqueUrls (all_urls : List String) : List String := all_urls.dedup

def batchSizeOf (num_workers : Nat) : Nat := num_workers * 1000

/-- math.ceil(total_urls / batch_size) on naturals. -/
def totalBatchesOf (total_urls batch_size : Nat) : Nat :=
  (total_urls + batch_size - 1) / batch_size

/-- One batch read: skip urls_processed lines, take the next
min(batch_size, total - urls_processed) lines, stripping each. -/
def readBatch (fileLines : List String) (batch_size urls_processed : Nat) : List String :=
  ((fileLines.drop urls_processed).take
    (min batch_size (fileLines.length - urls_processed))).map pyStrip

/-- The batch loop of scrape_apartments: read the given number of batches,
advancing urls_processed by each batch's length. -/
def readBatches (fileLines : List String) (batch_size : Nat) :
    Nat → Nat → List (List String)
  | 0, _ => []
  | k + 1, urls_processed =>
    let batch := readBatch fileLines batch_size urls_processed
    batch :: readBatches fileLines batch_size k (urls_processed + batch.length)

/-- urls_per_worker = math.ceil(len(batch_urls) / num_workers). -/
def urlsPerWorker (batchLen num_workers : Nat) : Nat :=
  (batchLen + num_workers - 1) / num_workers

/-- Python slicing loop batch_urls[i:i+k] for i in range(0, len, k),
driven by a fuel argument; fuel at least the list length is enough since
every step drops at least one element when k is at least 1. -/
def sliceChunksAux (k : Nat) : Nat → List String → List (List String)
  | 0, _ => []
  | _, [] => []
  | fuel + 1, x :: xs => (x :: xs).take k :: sliceChunksAux k fuel ((x :: xs).drop k)

def sliceChunks (k : Nat) (l : List String) : List (List String) :=
  if k = 0 then [] else sliceChunksAux k l.length l

/-- url_chunks = [batch_urls[i:i+upw] for i in range(0, len(batch_urls), upw)]. -/
def url_chunks (batch_urls : List String) (num_workers : Nat) : List (List String) :=
  sliceChunks (urlsPerWorker batch_urls.length num_workers) batch_urls

/-! Shared counters and the run trace (lines 139-188)

The two shared counters are urls_processed (advanced by the batch length
right after the batch is read) and listings_scraped (incremented under the
lock once per non-empty record).  A run is modelled by the per-batch URL
lists together with, for each batch, the interleaved order in which the
concurrent workers complete their per-URL outcomes; every interleaving is
a permutation of the batch's outcome multiset. -/

structure Counters where
  urls_processed : Nat
  listings_scraped : Nat
deriving DecidableEq

/-- The truthiness test if details: of process_urls, true exactly when
get_listing_details produced a non-empty record. -/
def urlOutcome (fetch : String → Option Html) (div_class_mapping label_mapping : Dict String)
    (url : String) : Bool :=
  !(get_listing_details fetch url div_class_mapping label_mapping).isEmpty

/-- Counter states observed after each per-URL step within a batch, given
the interleaved outcome order; a true outcome increments
listings_scraped. -/
def scrapeStates : List Bool → Counters → List Counters
  | [], _ => []
  | b :: rest, c =>
    let c2 : Counters := ⟨c.urls_processed, c.listings_scraped + (if b then 1 else 0)⟩
    c2 :: scrapeStates rest c2

def afterScrape (outs : List Bool) (c : Counters) : Counters :=
  ⟨c.urls_processed, c.listings_scraped + outs.count true⟩

/-- All counter states of a run: per batch, the state right after
urls_processed is advanced by the batch length, then the states after
every interleaved per-URL step. -/
def runStates : List (Nat × List Bool) → Counters → List Counters
  | [], _ => []
  | (n, outs) :: rest, c =>
    let c1 : Counters := ⟨c.urls_processed + n, c.listings_scraped⟩
    (c1 :: scrapeStates outs c1) ++ runStates rest (afterScrape outs c1)

def runFinal : List (Nat × List Bool) → Counters → Counters
  | [], c => c
  | (n, outs) :: rest, c =>
    runFinal rest (afterScrape outs ⟨c.urls_processed + n, c.listings_scraped⟩)

/-! Output files of process_urls (lines 177-182) -/

/-- The CSV file name: apartments_batch_ followed by the one-based batch
number and the worker's completion timestamp. -/
def outputFileName (batch_num : Nat) (worker_timestamp : String) : String :=
  "apartments_batch_" ++ toString (batch_num + 1) ++ "_" ++ worker_timestamp ++ ".csv"

/-- The file written for one finished chunk: none when the chunk produced
no records (if scraped_listings: guards the write). -/
def chunkWrite (batch_num records : Nat) (worker_timestamp : String) : Option String :=
  if records ≠ 0 then some (outputFileName batch_num worker_timestamp) else none

/-- The distinct file paths present in the run directory after the given
chunks (batch number, record count, completion timestamp) have finished;
writes to an existing path overwrite it. -/
def runOutputFiles (chunks : List (Nat × Nat × String)) : List String :=
  (chunks.filterMap (fun c => chunkWrite c.1 c.2.1 c.2.2)).dedup

/-! Concrete pages and oracles used to instantiate the theorems -/

def spanGas : Html := .elem "span" [("class", "css-axw7ok")] (.ofList [.text " Gas "])

def spanElectric : Html := .elem "span" [("class", "css-axw7ok")] (.ofList [.text "Electric"])

def pHeatingLabel : Html := .elem "p" [] (.ofList [.text "Heating:"])

def pHeatingValue : Html := .elem "p" [] (.ofList [spanGas, spanElectric])

def heatingContainer : Html :=
  .elem "div" [("class", "box")] (.ofList [pHeatingLabel, pHeatingValue])

def pFloorLabel : Html := .elem "p" [] (.ofList [.text "Floor:"])

def pFloorValue : Html := .elem "p" [] (.ofList [.text " 3 "])

def floorContainer : Html :=
  .elem "div" [("class", "box")] (.ofList [pFloorLabel, pFloorValue])

def pHeatingValue2 : Html := .elem "p" [] (.ofList [.text "Electric"])

def heatingContainer2 : Html :=
  .elem "div" [("class", "box")] (.ofList [pHeatingLabel, pHeatingValue2])

def docC2 : Html := .elem "[document]" [] (.ofList [heatingContainer, floorContainer])

def docC10 : Html := .elem "[document]" [] (.ofList [heatingContainer, heatingContainer2])

def titleElem : Html := .elem "h1" [("class", "t-class")] (.ofList [.text " My Title "])

def docC1 : Html := .elem "[document]" [] (.ofList [titleElem, heatingContainer])

def fetchC1 : String → Option Html :=
  fun u => if u == "https://x/1" then some docC1 else none

def emptyDoc : Html := .elem "html" [] .nil

def fetchC6 : String → Option Html := fun u => if u == "E" then some emptyDoc else none

def goodAnchor : Html :=
  .elem "a" [("data-cy", "listing-item-link"), ("href", "pl/oferta/x")] .nil

def badAnchor : Html := .elem "a" [("data-cy", "listing-item-link")] .nil

def docC9 : Html := .elem "[document]" [] (.ofList [goodAnchor, badAnchor])

def fetchC9 : String → Option Html := fun u => if u == "P" then some docC9 else none

def fetchC5 : String → Option Html := fun u => if u == "u1" then some emptyDoc else none

def urls23 : List String := (List.range 23).map (fun i => "u" ++ toString i)

/-! Lemmas about the dict model -/

theorem dkeys_nil : dkeys ([] : Dict α) = [] := rfl

theorem dkeys_cons (p : String × α) (d : Dict α) : dkeys (p :: d) = p.1 :: dkeys d := rfl

theorem dget_dinsert (d : Dict α) (k : String) (v : α) (k2 : String) :
    dget (dinsert d k v) k2 = if k2 = k then some v else dget d k2 := by
  induction d with
  | nil =>
    by_cases h : k2 = k
    · simp [dinsert, dget, h]
    · simp [dinsert, dget, h, Ne.symm h]
  | cons p rest ih =>
    by_cases hpk : p.1 = k
    · simp only [dinsert, if_pos (show (p.1 == k) = true by simpa using hpk)]
      by_cases h : k2 = k
      · simp [dget, h]
      · simp [dget, h, Ne.symm h, hpk]
    · simp only [dinsert, if_neg (show ¬(p.1 == k) = true by simpa using hpk)]
      by_cases hp2 : p.1 = k2
      · have h2 : ¬k2 = k := fun he => hpk (hp2.trans he)
        simp [dget, hp2, h2]
      · simp [dget, hp2, ih]

theorem mem_dkeys_dinsert (d : Dict α) (k : String) (v : α) (k2 : String) :
    k2 ∈ dkeys (dinsert d k v) ↔ k2 = k ∨ k2 ∈ dkeys d := by
  induction d with
  | nil => simp [dinsert, dkeys]
  | cons p rest ih =>
    by_cases hpk : p.1 = k
    · have hd : dinsert (p :: rest) k v = (k, v) :: rest := by
        simp [dinsert, hpk]
      simp only [hd, dkeys_cons, List.mem_cons, hpk]
      tauto
    · have hd : dinsert (p :: rest) k v = p :: dinsert rest k v := by
        simp [dinsert, hpk]
      simp only [hd, dkeys_cons, List.mem_cons, ih]
      tauto

/-- Folding Python dict assignments over a list of entries: a lookup hits
the value of the last entry whose key matches, else falls through to the
initial dict. -/
theorem dget_foldl_dinsert {ε : Type} (key : ε → String) (g : ε → α)
    (l : List ε) (d0 : Dict α) (k : String) :
    dget (l.foldl (fun d e => dinsert d (key e) (g e)) d0) k =
      match l.reverse.find? (fun e => key e == k) with
      | some e => some (g e)
      | none => dget d0 k := by
  induction l generalizing d0 with
  | nil => simp
  | cons e t ih =>
    simp only [List.foldl_cons, List.reverse_cons, List.find?_append]
    rw [ih]
    cases hf : t.reverse.find? (fun e2 => key e2 == k) with
    | some p => simp [hf]
    | none =>
      simp only [hf, Option.none_or]
      rw [dget_dinsert]
      by_cases h : key e = k
      · simp [List.find?, h]
      · have hb : (key e == k) = false := by simpa using h
        simp only [List.find?, hb, if_neg]
        rw [if_neg (fun he => h he.symm)]

theorem mem_dkeys_foldl_dinsert {ε : Type} (key : ε → String) (g : ε → α)
    (l : List ε) (d0 : Dict α) (k : String) :
    k ∈ dkeys (l.foldl (fun d e => dinsert d (key e) (g e)) d0) ↔
      k ∈ dkeys d0 ∨ k ∈ l.map key := by
  induction l generalizing d0 with
  | nil => simp
  | cons e t ih =>
    simp only [List.foldl_cons, List.map_cons, List.mem_cons]
    rw [ih, mem_dkeys_dinsert]
    tauto

/-- In a dict whose keys are distinct, searching for an entry's key finds
exactly that entry. -/
theorem find?_key_of_nodup (l : List (String × β))
    (hnd : (List.map (fun p => p.1) l).Nodup) (p : String × β) (hp : p ∈ l) :
    l.find? (fun q => q.1 == p.1) = some p := by
  induction l with
  | nil => cases hp
  | cons q t ih =>
    rcases List.mem_cons.mp hp with h | h
    · subst h; simp [List.find?]
    · have hq : q.1 ≠ p.1 := by
        intro hqe
        apply (List.nodup_cons.mp hnd).1
        have hm : p.1 ∈ List.map (fun r => r.1) t := List.mem_map_of_mem _ h
        simpa [hqe] using hm
      rw [List.find?_cons_of_neg _ (by simpa using hq)]
      exact ih (List.nodup_cons.mp hnd).2 h

/-! Lemmas about extract_label_value_pairs -/

theorem foldl_dstep_eq_filterMap (labels : List String) (l : List Html) (d0 : Dict String) :
    l.foldl (dstep labels) d0 =
      (l.filterMap (containerContribution labels)).foldl
        (fun d kv => dinsert d kv.1 kv.2) d0 := by
  induction l generalizing d0 with
  | nil => simp
  | cons c t ih =>
    cases hc : containerContribution labels c with
    | none =>
      simp only [List.foldl_cons, List.filterMap_cons, hc, dstep]
      exact ih _
    | some kv =>
      simp only [List.foldl_cons, List.filterMap_cons, hc, dstep]
      exact ih _

/-- The label-to-value map looks up the contribution of the LAST container
(in document order) that produced the wanted label. -/
theorem dget_extract (soup : Html) (labels : List String) (cls k : String) :
    dget (extract_label_value_pairs soup labels cls) k =
      (((containersOf soup cls).filterMap (containerContribution labels)).reverse.find?
        (fun kv => kv.1 == k)).map (fun kv => kv.2) := by
  unfold extract_label_value_pairs
  rw [foldl_dstep_eq_filterMap]
  rw [dget_foldl_dinsert (fun kv : String × String => kv.1) (fun kv => kv.2)]
  cases hf : ((containersOf soup cls).filterMap (containerContribution labels)).reverse.find?
      (fun kv => kv.1 == k) with
  | none => simp [hf, dget]
  | some kv => simp [hf]

theorem containerContribution_eq_none (labels : List String) (c : Html)
    (h : ∀ p0 p1, paragraphsOf c = [p0, p1] → pyStrip (textContent p0) ∉ labels) :
    containerContribution labels c = none := by
  unfold containerContribution
  cases hp : paragraphsOf c with
  | nil => rfl
  | cons a t =>
    cases t with
    | nil => rfl
    | cons b t2 =>
      cases t2 with
      | nil =>
        simp [h a b hp]
      | cons x t3 => rfl

theorem containerContribution_eq_some (labels : List String) (c p0 p1 : Html)
    (hp : paragraphsOf c = [p0, p1]) (hl : pyStrip (textContent p0) ∈ labels) :
    containerContribution labels c =
      some (pyStrip (textContent p0),
        if (valueSpans p1).isEmpty then pyStrip (textContent p1)
        else String.intercalate "; " ((valueSpans p1).map (fun s => pyStrip (textContent s)))) := by
  unfold containerContribution
  rw [hp]
  simp [hl]

/-! Lemmas about chunking (url_chunks) -/

theorem le_ceil_mul (a b : Nat) (hb : 1 ≤ b) : a ≤ ((a + b - 1) / b) * b := by
  have h1 : b * ((a + b - 1) / b) + (a + b - 1) % b = a + b - 1 := Nat.div_add_mod _ _
  have h2 : (a + b - 1) % b < b := Nat.mod_lt _ (by omega)
  have h3 : ((a + b - 1) / b) * b = b * ((a + b - 1) / b) := Nat.mul_comm _ _
  rw [h3]
  generalize hq : b * ((a + b - 1) / b) = t at h1
  generalize hr : (a + b - 1) % b = r at h1 h2
  omega

theorem sliceChunksAux_flatten (k : Nat) (hk : 1 ≤ k) :
    ∀ (fuel : Nat) (l : List String), l.length ≤ fuel →
      (sliceChunksAux k fuel l).flatten = l := by
  intro fuel
  induction fuel with
  | zero =>
    intro l hl
    have hnil : l = [] := List.length_eq_zero.mp (Nat.le_zero.mp hl)
    subst hnil
    simp [sliceChunksAux]
  | succ n ih =>
    intro l hl
    cases l with
    | nil => simp [sliceChunksAux]
    | cons x xs =>
      simp only [sliceChunksAux, List.flatten_cons]
      rw [ih]
      · exact List.take_append_drop k (x :: xs)
      · rw [List.length_drop]
        simp only [List.length_cons] at hl ⊢
        omega

theorem sliceChunksAux_get (k : Nat) (hk : 1 ≤ k) :
    ∀ (fuel : Nat) (l : List String), l.length ≤ fuel →
      ∀ (i : Nat) (h : i < (sliceChunksAux k fuel l).length),
        (sliceChunksAux k fuel l).get ⟨i, h⟩ = (l.drop (i * k)).take k := by
  intro fuel
  induction fuel with
  | zero =>
    intro l hl i h
    exact absurd h (by simp [sliceChunksAux])
  | succ n ih =>
    intro l hl i h
    cases l with
    | nil => exact absurd h (by simp [sliceChunksAux])
    | cons x xs =>
      cases i with
      | zero => simp [sliceChunksAux]
      | succ i =>
        have hlen : ((x :: xs).drop k).length ≤ n := by
          rw [List.length_drop]
          simp only [List.length_cons] at hl ⊢
          omega
        have hh : i < (sliceChunksAux k n ((x :: xs).drop k)).length := by
          simpa [sliceChunksAux] using h
        have := ih ((x :: xs).drop k) hlen i hh
        simp only [sliceChunksAux, List.get_cons_succ]
        rw [this, List.drop_drop]
        congr 2
        rw [Nat.succ_mul]
        omega

theorem sliceChunksAux_mem (k : Nat) (hk : 1 ≤ k) :
    ∀ (fuel : Nat) (l : List String), l.length ≤ fuel →
      ∀ c ∈ sliceChunksAux k fuel l, c ≠ [] ∧ c.length ≤ k := by
  intro fuel
  induction fuel with
  | zero =>
    intro l hl c hc
    exact absurd hc (by simp [sliceChunksAux])
  | succ n ih =>
    intro l hl c hc
    cases l with
    | nil => exact absurd hc (by simp [sliceChunksAux])
    | cons x xs =>
      simp only [sliceChunksAux, List.mem_cons] at hc
      rcases hc with hc | hc
      · subst hc
        constructor
        · intro hnil
          have : k = 0 ∨ (x :: xs : List String) = [] := List.take_eq_nil_iff.mp hnil
          rcases this with h0 | h0
          · omega
          · exact List.cons_ne_nil _ _ h0
        · rw [List.length_take]
          exact min_le_left _ _
      · refine ih ((x :: xs).drop k) ?_ c hc
        rw [List.length_drop]
        simp only [List.length_cons] at hl ⊢
        omega

theorem sliceChunksAux_length_le (k : Nat) (hk : 1 ≤ k) :
    ∀ (fuel : Nat) (l : List String) (m : Nat), l.length ≤ fuel →
      l.length ≤ m * k → (sliceChunksAux k fuel l).length ≤ m := by
  intro fuel
  induction fuel with
  | zero =>
    intro l m hl hm
    simp [sliceChunksAux]
  | succ n ih =>
    intro l m hl hm
    cases l with
    | nil => simp [sliceChunksAux]
    | cons x xs =>
      cases m with
      | zero =>
        exact absurd hm (by simp)
      | succ m2 =>
        simp only [sliceChunksAux, List.length_cons]
        have hr : ((x :: xs).drop k).length ≤ n := by
          rw [List.length_drop]
          simp only [List.length_cons] at hl ⊢
          omega
        have hm2 : ((x :: xs).drop k).length ≤ m2 * k := by
          rw [List.length_drop]
          rw [Nat.succ_mul] at hm
          simp only [List.length_cons] at hm ⊢
          omega
        have := ih ((x :: xs).drop k) m2 hr hm2
        omega

/-! Lemmas about batch reading (readBatch, readBatches) -/

theorem take_min_length (l : List α) (n : Nat) : l.take (min n l.length) = l.take n := by
  rcases Nat.le_total n l.length with h | h
  · rw [Nat.min_eq_left h]
  · rw [Nat.min_eq_right h, List.take_length, List.take_of_length_le h]

theorem readBatch_eq (lines : List String) (bs p : Nat) :
    readBatch lines bs p = ((lines.drop p).take bs).map pyStrip := by
  unfold readBatch
  rw [show lines.length - p = (lines.drop p).length from (List.length_drop p lines).symm]
  rw [take_min_length]

theorem readBatch_length (lines : List String) (bs p : Nat) :
    (readBatch lines bs p).length = min bs (lines.length - p) := by
  unfold readBatch
  rw [List.length_map, List.length_take, List.length_drop]
  omega

theorem readBatches_length (lines : List String) (bs : Nat) :
    ∀ (k p : Nat), (readBatches lines bs k p).length = k := by
  intro k
  induction k with
  | zero => intro p; simp [readBatches]
  | succ n ih => intro p; simp [readBatches, ih]

theorem readBatches_flatten (lines : List String) (bs : Nat) :
    ∀ (k p : Nat), (readBatches lines bs k p).flatten =
      ((lines.drop p).take (k * bs)).map pyStrip := by
  intro k
  induction k with
  | zero => intro p; simp [readBatches]
  | succ n ih =>
    intro p
    simp only [readBatches, List.flatten_cons]
    rw [ih, readBatch_length, readBatch_eq]
    rw [show (n + 1) * bs = bs + n * bs from by rw [Nat.succ_mul]; omega]
    rw [List.take_add, List.map_append, List.drop_drop]
    congr 2
    rcases Nat.le_total bs (lines.length - p) with hc | hc
    · rw [Nat.min_eq_left hc]
    · have h1 : lines.drop (p + min bs (lines.length - p)) = [] :=
        List.drop_eq_nil_of_le (by omega)
      have h2 : lines.drop (p + bs) = [] := List.drop_eq_nil_of_le (by omega)
      rw [h1, h2]

/-! Lemmas about get_listings_page -/

theorem collectHrefs_eq_none (l : List Html)
    (h : ∃ a2 ∈ l, getAttr a2 "href" = none) : collectHrefs l = none := by
  induction l with
  | nil => simp at h
  | cons a2 rest ih =>
    rcases h with ⟨b, hb, hbn⟩
    rcases List.mem_cons.mp hb with hba | hbm
    · subst hba
      simp [collectHrefs, hbn]
    · cases ha : getAttr a2 "href" with
      | none => simp [collectHrefs, ha]
      | some x => simp [collectHrefs, ha, ih ⟨b, hbm, hbn⟩]

/-! Lemmas about the counter trace -/

theorem scrapeStates_spec (outs : List Bool) :
    ∀ (c : Counters), ∀ s ∈ scrapeStates outs c,
      s.urls_processed = c.urls_processed ∧
      s.listings_scraped ≤ c.listings_scraped + outs.length := by
  induction outs with
  | nil => intro c s hs; cases hs
  | cons b rest ih =>
    intro c s hs
    simp only [scrapeStates, List.mem_cons] at hs
    rcases hs with hs | hs
    · subst hs
      cases b <;> simp
    · obtain ⟨h1, h2⟩ := ih _ s hs
      refine ⟨by simpa using h1, ?_⟩
      cases b <;> simp at h2 ⊢ <;> omega

theorem runStates_inv (bs : List (Nat × List Bool)) :
    ∀ (c : Counters), c.listings_scraped ≤ c.urls_processed →
      (∀ b ∈ bs, (b.2).length ≤ b.1) →
      ∀ s ∈ runStates bs c, s.listings_scraped ≤ s.urls_processed := by
  induction bs with
  | nil => intro c hc hlen s hs; cases hs
  | cons b rest ih =>
    obtain ⟨n, outs⟩ := b
    intro c hc hlen s hs
    simp only [runStates, List.mem_append, List.mem_cons] at hs
    have hn : outs.length ≤ n := hlen (n, outs) (List.mem_cons_self _ _)
    rcases hs with (hs | hs) | hs
    · subst hs
      simpa using by omega
    · obtain ⟨h1, h2⟩ := scrapeStates_spec outs _ s hs
      simp only at h1 h2
      omega
    · refine ih _ ?_ ?_ s hs
      · have hcount : outs.count true ≤ outs.length := List.count_le_length _ _
        simp only [afterScrape]
        omega
      · intro b2 hb2
        exact hlen b2 (List.mem_cons_of_mem _ hb2)

theorem runFinal_scraped (bs : List (Nat × List Bool)) :
    ∀ (c : Counters), (runFinal bs c).listings_scraped =
      c.listings_scraped + (bs.map (fun b => b.2.count true)).sum := by
  induction bs with
  | nil => intro c; simp [runFinal]
  | cons b rest ih =>
    obtain ⟨n, outs⟩ := b
    intro c
    simp only [runFinal, List.map_cons, List.sum_cons]
    rw [ih]
    simp only [afterScrape]
    omega

/-! The claims -/

/-- C6: fetch and parse failures are converted to an empty result at the
point of origin and never propagated: get_listings_page returns [] on a
fetch failure and for any page without marker anchors; get_listing_details
returns the empty record on a fetch failure; and an empty record makes the
caller's truthiness test false, so the record is discarded rather than
accumulated.  All embedded functions are total, so no per-URL failure can
abort a batch, a worker or the run. -/
theorem claim_C6 (fetch : String → Option Html)
    (div_class_mapping label_mapping : Dict String) (url : String) :
    (fetch url = none →
      get_listings_page fetch url = []
      ∧ get_listing_details fetch url div_class_mapping label_mapping = [])
    ∧ (∀ soup, fetch url = some soup → findAll markerAnchor soup = [] →
        get_listings_page fetch url = [])
    ∧ (get_listing_details fetch url div_class_mapping label_mapping = [] →
        urlOutcome fetch div_class_mapping label_mapping url = false) := by
  refine ⟨?_, ?_, ?_⟩
  · intro hf
    constructor
    · simp [get_listings_page, hf]
    · simp [get_listing_details, hf]
  · intro soup hf hempty
    simp [get_listings_page, hf, hempty, collectHrefs]
  · intro hd
    simp [urlOutcome, hd]

/-- Witness for C6 at a concrete failing oracle and a concrete page with no
marker anchor. -/
theorem claim_C6_witness :
    get_listings_page (fun _ => (none : Option Html)) "x" = []
    ∧ get_listing_details (fun _ => (none : Option Html)) "x" [] [] = []
    ∧ get_listings_page fetchC6 "E" = [] :=
  ⟨((claim_C6 (fun _ => none) [] [] "x").1 rfl).1,
   ((claim_C6 (fun _ => none) [] [] "x").1 rfl).2,
   (claim_C6 fetchC6 [] [] "E").2.1 emptyDoc rfl (by decide)⟩

/-- C9: when some marker anchor on a fetched page has no href attribute,
the KeyError lands in the blanket handler and the whole page degrades to
the empty list, discarding the well-formed anchors too. -/
theorem claim_C9 (fetch : String → Option Html) (url : String) (soup : Html)
    (hf : fetch url = some soup)
    (hbad : ∃ a2 ∈ findAll markerAnchor soup, getAttr a2 "href" = none) :
    get_listings_page fetch url = [] := by
  simp [get_listings_page, hf, collectHrefs_eq_none _ hbad]

/-- Witness for C9: a page holding one well-formed marker anchor and one
marker anchor without href yields no link at all. -/
theorem claim_C9_witness : get_listings_page fetchC9 "P" = [] :=
  claim_C9 fetchC9 "P" docC9 rfl ⟨badAnchor, by decide, rfl⟩

/-- C10: when several containers yield the same label, the label-to-value
map holds the value of the last such container in document order. -/
theorem claim_C10 (soup : Html) (labels : List String) (cls : String)
    (pre mid post : List Html) (c1 c2 : Html) (l v1 v2 : String)
    (hcont : containersOf soup cls = pre ++ (c1 :: (mid ++ (c2 :: post))))
    (h1 : containerContribution labels c1 = some (l, v1))
    (h2 : containerContribution labels c2 = some (l, v2))
    (hpost : ∀ c3 ∈ post, ∀ kv, containerContribution labels c3 = some kv → kv.1 ≠ l) :
    dget (extract_label_value_pairs soup labels cls) l = some v2 := by
  rw [dget_extract, hcont]
  have hz : (List.filterMap (containerContribution labels) post).reverse.find?
      (fun kv => kv.1 == l) = none := by
    rw [List.find?_eq_none]
    intro kv hkv
    rw [List.mem_reverse] at hkv
    rcases List.mem_filterMap.mp hkv with ⟨c3, hc3, hcc⟩
    simpa using hpost c3 hc3 kv hcc
  simp [List.filterMap_append, List.filterMap_cons, h1, h2, List.find?_append, hz, List.find?]

/-- Witness for C10: two containers labelled the same; the map holds the
second container's value, the first one's value is overwritten. -/
theorem claim_C10_witness :
    dget (extract_label_value_pairs docC10 ["Heating:"] "box") "Heating:" = some "Electric" :=
  claim_C10 docC10 ["Heating:"] "box" [] [] [] heatingContainer heatingContainer2
    "Heating:" "Gas; Electric" "Electric" rfl (by decide) (by decide)
    (fun c3 hc3 => absurd hc3 (List.not_mem_nil c3))

/-- C8: list(set(all_urls)) holds each distinct URL exactly once and
nothing else, deduplicating by string equality (order not preserved); on
[A, B, A, C] it has exactly the three members A, B, C. -/
theorem claim_C8 :
    (∀ l : List String, (uniqueUrls l).Nodup)
    ∧ (∀ (l : List String) (u : String), u ∈ uniqueUrls l ↔ u ∈ l)
    ∧ (uniqueUrls ["A", "B", "A", "C"]).length = 3
    ∧ (∀ u : String, u ∈ uniqueUrls ["A", "B", "A", "C"] ↔ u = "A" ∨ u = "B" ∨ u = "C") := by
  refine ⟨fun l => List.nodup_dedup l, fun l u => List.mem_dedup, by decide, fun u => ?_⟩
  have h : uniqueUrls ["A", "B", "A", "C"] = ["B", "A", "C"] := by decide
  rw [h]
  simp only [List.mem_cons, List.not_mem_nil, or_false]
  tauto

/-- C7 (code evaluated at the failing input): two workers of the same batch
that finish within the same second derive the same CSV path, so the second
write overwrites the first and the run directory holds one file for two
(batch, worker) pairs that both produced records. -/
theorem claim_C7 :
    chunkWrite 0 3 "20250101_120000" = some "apartments_batch_1_20250101_120000.csv"
    ∧ chunkWrite 0 2 "20250101_120000" = some "apartments_batch_1_20250101_120000.csv"
    ∧ runOutputFiles [(0, 3, "20250101_120000"), (0, 2, "20250101_120000")]
        = ["apartments_batch_1_20250101_120000.csv"]
    ∧ (runOutputFiles [(0, 3, "20250101_120000"), (0, 2, "20250101_120000")]).length = 1 := by
  refine ⟨by decide, by decide, by decide, by decide⟩

/-- C3, counterexample: with 6 URLs and 5 workers the chunk size is
ceil(6/5) = 2 and the slicing loop yields 3 chunks, not numWorkers = 5
chunks; so the batch is NOT partitioned into numWorkers contiguous chunks
with only the final one smaller or empty. -/
theorem claim_C3_counterexample :
    urlsPerWorker 6 5 = 2
    ∧ (url_chunks ["a", "b", "c", "d", "e", "f"] 5).map List.length = [2, 2, 2]
    ∧ (url_chunks ["a", "b", "c", "d", "e", "f"] 5).length ≠ 5 := by
  refine ⟨by decide, by decide, by decide⟩

/-- C2: in the label-value scan, a container with exactly two paragraphs
whose first trimmed text is a wanted label maps that label to the joined
trimmed span texts when value spans exist under the second paragraph and
to the second paragraph's trimmed text otherwise (the lookup below is
stated for the last such container in document order, matching the
overwrite semantics of the results dict); and a container with a different
paragraph count or an unknown label contributes nothing: dropping it from
the container scan leaves the map unchanged. -/
theorem claim_C2 (soup : Html) (labels : List String) (cls : String) :
    (∀ (pre post : List Html) (c p0 p1 : Html),
      containersOf soup cls = pre ++ (c :: post) →
      paragraphsOf c = [p0, p1] →
      pyStrip (textContent p0) ∈ labels →
      (∀ c2 ∈ post, ∀ kv, containerContribution labels c2 = some kv →
        kv.1 ≠ pyStrip (textContent p0)) →
      ((valueSpans p1 = [] →
          dget (extract_label_value_pairs soup labels cls) (pyStrip (textContent p0)) =
            some (pyStrip (textContent p1)))
       ∧ (valueSpans p1 ≠ [] →
          dget (extract_label_value_pairs soup labels cls) (pyStrip (textContent p0)) =
            some (String.intercalate "; "
              ((valueSpans p1).map (fun s => pyStrip (textContent s)))))))
    ∧ (∀ (pre post : List Html) (c : Html),
      containersOf soup cls = pre ++ (c :: post) →
      (∀ p0 p1, paragraphsOf c = [p0, p1] → pyStrip (textContent p0) ∉ labels) →
      extract_label_value_pairs soup labels cls =
        (pre ++ post).foldl (dstep labels) []) := by
  constructor
  · intro pre post c p0 p1 hcont hp hl hpost
    have hcc := containerContribution_eq_some labels c p0 p1 hp hl
    have hz : (List.filterMap (containerContribution labels) post).reverse.find?
        (fun kv => kv.1 == pyStrip (textContent p0)) = none := by
      rw [List.find?_eq_none]
      intro kv hkv
      rw [List.mem_reverse] at hkv
      rcases List.mem_filterMap.mp hkv with ⟨c2, hc2, hcc2⟩
      simpa using hpost c2 hc2 kv hcc2
    have key : dget (extract_label_value_pairs soup labels cls) (pyStrip (textContent p0)) =
        some (if (valueSpans p1).isEmpty then pyStrip (textContent p1)
          else String.intercalate "; "
            ((valueSpans p1).map (fun s => pyStrip (textContent s)))) := by
      rw [dget_extract, hcont]
      simp [List.filterMap_append, List.filterMap_cons, hcc, List.find?_append, hz,
        List.find?]
    constructor
    · intro hsp
      rw [key, hsp]
      simp
    · intro hsp
      have hne : (valueSpans p1).isEmpty = false := by
        cases hvs : valueSpans p1 with
        | nil => exact absurd hvs hsp
        | cons a t => rfl
      rw [key, hne]
      simp
  · intro pre post c hcont hnl
    have hcc : containerContribution labels c = none := containerContribution_eq_none labels c hnl
    unfold extract_label_value_pairs
    rw [hcont, List.foldl_append, List.foldl_append, List.foldl_cons]
    congr 1
    simp [dstep, hcc]

/-- Witness for C2: a page with a heating container whose value paragraph
holds two value spans and a floor container whose value paragraph is plain
text. -/
theorem claim_C2_witness :
    dget (extract_label_value_pairs docC2 ["Heating:", "Floor:"] "box") "Heating:"
      = some "Gas; Electric"
    ∧ dget (extract_label_value_pairs docC2 ["Heating:", "Floor:"] "box") "Floor:"
      = some "3" := by
  constructor
  · exact ((claim_C2 docC2 ["Heating:", "Floor:"] "box").1 [] [floorContainer]
      heatingContainer pHeatingLabel pHeatingValue rfl rfl (by decide)
      (by
        intro c2 hc2 kv hkv
        simp only [List.mem_cons, List.not_mem_nil, or_false] at hc2
        subst hc2
        rw [show containerContribution ["Heating:", "Floor:"] floorContainer
            = some ("Floor:", "3") from by decide] at hkv
        cases hkv
        decide)).2 (by decide)
  · exact ((claim_C2 docC2 ["Heating:", "Floor:"] "box").1 [heatingContainer] []
      floorContainer pFloorLabel pFloorValue rfl rfl (by decide)
      (fun c2 hc2 => absurd hc2 (List.not_mem_nil c2))).1 rfl

theorem get_eq_of_list_eq {l l2 : List α} (hl : l = l2) (i : Nat) (h : i < l.length)
    (h2 : i < l2.length) : l.get ⟨i, h⟩ = l2.get ⟨i, h2⟩ := by
  subst hl
  rfl

/-- C3, amended: the slicing loop partitions a non-empty batch into
ceil(batchLen / chunkSize) contiguous non-empty chunks, where chunkSize is
ceil(batchLen / numWorkers); there are at most numWorkers chunks, chunk i
is batch[i*chunkSize : (i+1)*chunkSize], every chunk except possibly the
final one has exactly chunkSize elements and the final one is non-empty
and at most chunkSize; the concatenation of the chunks in order equals the
batch; 23 URLs with 5 workers give chunk sizes [5, 5, 5, 5, 3]. -/
theorem claim_C3 (batch : List String) (nw : Nat) (hne : batch ≠ []) (hnw : 1 ≤ nw) :
    (url_chunks batch nw).flatten = batch
    ∧ (url_chunks batch nw).length ≤ nw
    ∧ (∀ (i : Nat) (h : i < (url_chunks batch nw).length),
        (url_chunks batch nw).get ⟨i, h⟩ =
          (batch.drop (i * urlsPerWorker batch.length nw)).take
            (urlsPerWorker batch.length nw))
    ∧ (∀ c ∈ url_chunks batch nw, c ≠ [] ∧ c.length ≤ urlsPerWorker batch.length nw)
    ∧ (∀ (i : Nat) (h : i + 1 < (url_chunks batch nw).length),
        ((url_chunks batch nw).get ⟨i, Nat.lt_of_succ_lt h⟩).length =
          urlsPerWorker batch.length nw)
    ∧ (url_chunks urls23 5).map List.length = [5, 5, 5, 5, 3] := by
  have hlen1 : 1 ≤ batch.length := by
    cases batch with
    | nil => exact absurd rfl hne
    | cons x xs => simp
  have hk1 : 1 ≤ urlsPerWorker batch.length nw := by
    unfold urlsPerWorker
    rw [Nat.one_le_div_iff (by omega)]
    omega
  have hchunks : url_chunks batch nw =
      sliceChunksAux (urlsPerWorker batch.length nw) batch.length batch := by
    unfold url_chunks sliceChunks
    rw [if_neg (by omega)]
  refine ⟨?_, ?_, ?_, ?_, ?_, by decide⟩
  · rw [hchunks]
    exact sliceChunksAux_flatten _ hk1 _ _ le_rfl
  · rw [hchunks]
    refine sliceChunksAux_length_le _ hk1 _ _ nw le_rfl ?_
    have := le_ceil_mul batch.length nw hnw
    unfold urlsPerWorker
    rw [Nat.mul_comm]
    exact this
  · intro i h
    have h2 : i < (sliceChunksAux (urlsPerWorker batch.length nw) batch.length batch).length := by
      rw [← hchunks]
      exact h
    rw [get_eq_of_list_eq hchunks i h h2]
    exact sliceChunksAux_get _ hk1 _ _ le_rfl i h2
  · intro c hc
    rw [hchunks] at hc
    exact sliceChunksAux_mem _ hk1 _ _ le_rfl c hc
  · intro i h
    have h2s : i + 1 <
        (sliceChunksAux (urlsPerWorker batch.length nw) batch.length batch).length := by
      rw [← hchunks]
      exact h
    have h2 : i < (sliceChunksAux (urlsPerWorker batch.length nw) batch.length batch).length :=
      Nat.lt_of_succ_lt h2s
    rw [get_eq_of_list_eq hchunks i (Nat.lt_of_succ_lt h) h2]
    have hget := sliceChunksAux_get _ hk1 batch.length batch le_rfl i h2
    have hgetn := sliceChunksAux_get _ hk1 batch.length batch le_rfl (i + 1) h2s
    have hmem : (sliceChunksAux (urlsPerWorker batch.length nw) batch.length batch).get
        ⟨i + 1, h2s⟩ ∈ sliceChunksAux (urlsPerWorker batch.length nw) batch.length batch :=
      List.get_mem _ _ _
    have hnext := (sliceChunksAux_mem _ hk1 _ _ le_rfl _ hmem).1
    rw [hgetn] at hnext
    have hlt : (i + 1) * urlsPerWorker batch.length nw < batch.length := by
      by_contra hge
      apply hnext
      rw [List.drop_eq_nil_of_le (by omega)]
      exact List.take_nil
    rw [hget, List.length_take, List.length_drop]
    have hsm : (i + 1) * urlsPerWorker batch.length nw =
        i * urlsPerWorker batch.length nw + urlsPerWorker batch.length nw := by
      rw [Nat.succ_mul]
    omega

/-- Witness for C3 on a concrete batch of three URLs and two workers. -/
theorem claim_C3_witness :
    (url_chunks ["a", "b", "c"] 2).flatten = ["a", "b", "c"]
    ∧ (url_chunks ["a", "b", "c"] 2).length ≤ 2 :=
  ⟨(claim_C3 ["a", "b", "c"] 2 (by decide) (by decide)).1,
   (claim_C3 ["a", "b", "c"] 2 (by decide) (by decide)).2.1⟩

/-- C4: writing one URL per line and then reading ceil(totalURLs/batchSize)
batches, each batch skipping the urls_processed lines already read and
taking the next min(batchSize, remaining) stripped lines, reproduces the
persisted URL list exactly: the batches concatenate to the original list,
so every URL is read exactly once. -/
theorem claim_C4 (urls : List String) (num_workers : Nat)
    (_hnodup : urls.Nodup)
    (hline : ∀ u ∈ urls, u ≠ "" ∧ pyStrip u = u)
    (hnw : 1 ≤ num_workers) :
    (readBatches urls (batchSizeOf num_workers)
        (totalBatchesOf urls.length (batchSizeOf num_workers)) 0).length
      = totalBatchesOf urls.length (batchSizeOf num_workers)
    ∧ (readBatches urls (batchSizeOf num_workers)
        (totalBatchesOf urls.length (batchSizeOf num_workers)) 0).flatten = urls := by
  constructor
  · exact readBatches_length _ _ _ _
  · rw [readBatches_flatten]
    simp only [List.drop_zero]
    have hbs : 1 ≤ batchSizeOf num_workers := by
      unfold batchSizeOf
      omega
    have hcover : urls.length ≤
        totalBatchesOf urls.length (batchSizeOf num_workers) * batchSizeOf num_workers := by
      unfold totalBatchesOf
      exact le_ceil_mul _ _ hbs
    rw [List.take_of_length_le hcover]
    have hmap : urls.map pyStrip = urls.map id :=
      List.map_congr_left (fun u hu => (hline u hu).2)
    rw [hmap, List.map_id]

/-- Witness for C4 on three concrete URLs and one worker. -/
theorem claim_C4_witness :
    (readBatches ["a", "b", "c"] (batchSizeOf 1)
        (totalBatchesOf (["a", "b", "c"] : List String).length (batchSizeOf 1)) 0).flatten
      = ["a", "b", "c"] :=
  (claim_C4 ["a", "b", "c"] 1 (by decide) (by decide) (by decide)).2

theorem get_listing_details_eq (fetch : String → Option Html) (url : String) (soup : Html)
    (div_class_mapping label_mapping : Dict String) (hf : fetch url = some soup) :
    get_listing_details fetch url div_class_mapping label_mapping =
      label_mapping.foldl
        (fun d fl => dinsert d fl.1
          (dget (extract_label_value_pairs soup (List.map (fun p => p.2) label_mapping)
            "css-t7cajz e15n0fyo1") fl.2))
        (div_class_mapping.foldl
          (fun d fs => dinsert d fs.1
            ((findAll (fun n => hasClass n fs.2) soup).head?.map
              (fun e => pyStrip (textContent e))))
          [("url", some url)]) := by
  unfold get_listing_details
  rw [hf]

/-- C1: on a successful fetch, the record's url field is exactly the
fetched URL; its key set is exactly url plus the keys of the two mappings;
and each direct-selector field holds the trimmed text of the first element
whose class matches its selector, or None when no element matches.  The
nodup hypothesis states that the two Python dicts have the unique keys
Python guarantees, that neither uses the reserved key url, and that the
two mappings do not share a field name (true of the configured
DIV_CLASS_MAPPING and LABEL_MAPPING). -/
theorem claim_C1 (fetch : String → Option Html) (url : String) (soup : Html)
    (div_class_mapping label_mapping : Dict String)
    (hf : fetch url = some soup)
    (hnd : ("url" :: (dkeys div_class_mapping ++ dkeys label_mapping)).Nodup) :
    dget (get_listing_details fetch url div_class_mapping label_mapping) "url"
      = some (some url)
    ∧ (∀ k, k ∈ dkeys (get_listing_details fetch url div_class_mapping label_mapping) ↔
        (k = "url" ∨ k ∈ dkeys div_class_mapping ∨ k ∈ dkeys label_mapping))
    ∧ (∀ fs ∈ div_class_mapping,
        (findAll (fun n => hasClass n fs.2) soup = [] →
          dget (get_listing_details fetch url div_class_mapping label_mapping) fs.1
            = some none)
        ∧ (∀ e rest, findAll (fun n => hasClass n fs.2) soup = e :: rest →
          dget (get_listing_details fetch url div_class_mapping label_mapping) fs.1
            = some (some (pyStrip (textContent e))))) := by
  obtain ⟨hurl_notin, hdl⟩ := List.nodup_cons.mp hnd
  have hurl_div : "url" ∉ dkeys div_class_mapping :=
    fun h => hurl_notin (List.mem_append_left _ h)
  have hurl_lab : "url" ∉ dkeys label_mapping :=
    fun h => hurl_notin (List.mem_append_right _ h)
  obtain ⟨hdiv_nodup, hlab_nodup, hdisj⟩ := List.nodup_append.mp hdl
  have hlabnone : ∀ k2 : String, k2 ∉ dkeys label_mapping →
      label_mapping.reverse.find? (fun fl => fl.1 == k2) = none := by
    intro k2 hk2
    rw [List.find?_eq_none]
    intro x hx
    simp only [beq_iff_eq]
    intro hx1
    apply hk2
    have := List.mem_map_of_mem (fun p : String × String => p.1) (List.mem_reverse.mp hx)
    simpa [dkeys, hx1] using this
  have hdivnone : ∀ k2 : String, k2 ∉ dkeys div_class_mapping →
      div_class_mapping.reverse.find? (fun fs2 => fs2.1 == k2) = none := by
    intro k2 hk2
    rw [List.find?_eq_none]
    intro x hx
    simp only [beq_iff_eq]
    intro hx1
    apply hk2
    have := List.mem_map_of_mem (fun p : String × String => p.1) (List.mem_reverse.mp hx)
    simpa [dkeys, hx1] using this
  refine ⟨?_, ?_, ?_⟩
  · rw [get_listing_details_eq fetch url soup _ _ hf]
    rw [dget_foldl_dinsert (fun fl : String × String => fl.1)
      (fun fl => dget (extract_label_value_pairs soup
        (List.map (fun p => p.2) label_mapping) "css-t7cajz e15n0fyo1") fl.2)]
    rw [hlabnone "url" hurl_lab]
    rw [dget_foldl_dinsert (fun fs : String × String => fs.1)
      (fun fs => (findAll (fun n => hasClass n fs.2) soup).head?.map
        (fun e => pyStrip (textContent e)))]
    rw [hdivnone "url" hurl_div]
    simp [dget]
  · intro k
    rw [get_listing_details_eq fetch url soup _ _ hf]
    rw [mem_dkeys_foldl_dinsert (fun fl : String × String => fl.1)
      (fun fl => dget (extract_label_value_pairs soup
        (List.map (fun p => p.2) label_mapping) "css-t7cajz e15n0fyo1") fl.2)]
    rw [mem_dkeys_foldl_dinsert (fun fs : String × String => fs.1)
      (fun fs => (findAll (fun n => hasClass n fs.2) soup).head?.map
        (fun e => pyStrip (textContent e)))]
    simp only [dkeys, List.map_cons, List.map_nil, List.mem_singleton]
    tauto
  · intro fs hfs
    have hfs_key : fs.1 ∈ dkeys div_class_mapping := by
      simpa [dkeys] using List.mem_map_of_mem (fun p : String × String => p.1) hfs
    have hfs_notlab : fs.1 ∉ dkeys label_mapping := fun hmem => hdisj hfs_key hmem
    have hrevnd : (List.map (fun p : String × String => p.1)
        div_class_mapping.reverse).Nodup := by
      rw [List.map_reverse]
      exact List.nodup_reverse.mpr hdiv_nodup
    have hbase : dget (get_listing_details fetch url div_class_mapping label_mapping) fs.1
        = some ((findAll (fun n => hasClass n fs.2) soup).head?.map
            (fun e => pyStrip (textContent e))) := by
      rw [get_listing_details_eq fetch url soup _ _ hf]
      rw [dget_foldl_dinsert (fun fl : String × String => fl.1)
        (fun fl => dget (extract_label_value_pairs soup
          (List.map (fun p => p.2) label_mapping) "css-t7cajz e15n0fyo1") fl.2)]
      rw [hlabnone fs.1 hfs_notlab]
      rw [dget_foldl_dinsert (fun fs2 : String × String => fs2.1)
        (fun fs2 => (findAll (fun n => hasClass n fs2.2) soup).head?.map
          (fun e => pyStrip (textContent e)))]
      rw [find?_key_of_nodup div_class_mapping.reverse hrevnd fs
        (List.mem_reverse.mpr hfs)]
    constructor
    · intro hnone
      rw [hbase, hnone]
      rfl
    · intro e rest he
      rw [hbase, he]
      rfl

/-- Witness for C1 on a concrete listing page with a title element and the
configured-style mappings. -/
theorem claim_C1_witness :
    dget (get_listing_details fetchC1 "https://x/1" [("title", "t-class")]
        [("heating", "Heating:")]) "url" = some (some "https://x/1")
    ∧ dget (get_listing_details fetchC1 "https://x/1" [("title", "t-class")]
        [("heating", "Heating:")]) "title" = some (some "My Title") := by
  have h := claim_C1 fetchC1 "https://x/1" docC1 [("title", "t-class")]
    [("heating", "Heating:")] rfl (by decide)
  exact ⟨h.1, (h.2.2 ("title", "t-class") (by decide)).2 titleElem [] (by decide)⟩

/-- C5: along every interleaving of every run, listings_scraped never
exceeds urls_processed (each batch advances urls_processed by the batch
length before its workers scrape, and each worker increments
listings_scraped at most once per URL of its chunk); and at the end of a
run listings_scraped equals the number of URLs whose record came back
non-empty, which never exceeds the total number of URLs read. -/
theorem claim_C5 (fetch : String → Option Html)
    (div_class_mapping label_mapping : Dict String)
    (batches : List (List String × List Bool))
    (hperm : ∀ b ∈ batches,
      b.2.Perm (b.1.map (urlOutcome fetch div_class_mapping label_mapping))) :
    (∀ s ∈ runStates (batches.map (fun b => (b.1.length, b.2))) ⟨0, 0⟩,
        s.listings_scraped ≤ s.urls_processed)
    ∧ (runFinal (batches.map (fun b => (b.1.length, b.2))) ⟨0, 0⟩).listings_scraped
        = (((batches.map (fun b => b.1)).flatten).map
            (urlOutcome fetch div_class_mapping label_mapping)).count true
    ∧ (runFinal (batches.map (fun b => (b.1.length, b.2))) ⟨0, 0⟩).listings_scraped
        ≤ ((batches.map (fun b => b.1)).flatten).length := by
  have hlen : ∀ p ∈ batches.map (fun b => (b.1.length, b.2)), (p.2).length ≤ p.1 := by
    intro p hp
    rcases List.mem_map.mp hp with ⟨b, hb, hpb⟩
    subst hpb
    have hpl := (hperm b hb).length_eq
    simp only [List.length_map] at hpl
    simp [hpl]
  have heq : (runFinal (batches.map (fun b => (b.1.length, b.2))) ⟨0, 0⟩).listings_scraped
      = (((batches.map (fun b => b.1)).flatten).map
          (urlOutcome fetch div_class_mapping label_mapping)).count true := by
    rw [runFinal_scraped]
    have hl : (((batches.map (fun b => b.1)).flatten).map
          (urlOutcome fetch div_class_mapping label_mapping))
        = (batches.map (fun b => b.1.map
            (urlOutcome fetch div_class_mapping label_mapping))).flatten := by
      rw [List.map_flatten, List.map_map]
      rfl
    rw [hl, List.count_flatten, List.map_map, List.map_map]
    have hcg : batches.map ((fun l2 : List Bool => l2.count true) ∘
          ((fun b : List String × List Bool => b.1.map
            (urlOutcome fetch div_class_mapping label_mapping))))
        = batches.map ((fun p : Nat × List Bool => p.2.count true) ∘
            (fun b : List String × List Bool => (b.1.length, b.2))) := by
      refine List.map_congr_left ?_
      intro b hb
      simp only [Function.comp_apply]
      exact ((hperm b hb).count_eq true).symm
    rw [hcg]
    simp
  refine ⟨runStates_inv _ ⟨0, 0⟩ (by simp) hlen, heq, ?_⟩
  rw [heq]
  calc (((batches.map (fun b => b.1)).flatten).map
        (urlOutcome fetch div_class_mapping label_mapping)).count true
      ≤ (((batches.map (fun b => b.1)).flatten).map
          (urlOutcome fetch div_class_mapping label_mapping)).length :=
        List.count_le_length _ _
    _ = ((batches.map (fun b => b.1)).flatten).length := List.length_map _ _

/-- Witness for C5 on a one-batch run of two URLs, the first of which
fetches successfully and the second of which fails. -/
theorem claim_C5_witness :
    (∀ s ∈ runStates ([(["u1", "u2"], [true, false])].map
        (fun b => (b.1.length, b.2))) ⟨0, 0⟩,
      s.listings_scraped ≤ s.urls_processed)
    ∧ (runFinal ([(["u1", "u2"], [true, false])].map
        (fun b => (b.1.length, b.2))) ⟨0, 0⟩).listings_scraped
      = ((([(["u1", "u2"], [true, false])].map (fun b => b.1)).flatten).map
          (urlOutcome fetchC5 [] [])).count true :=
  ⟨(claim_C5 fetchC5 [] [] [(["u1", "u2"], [true, false])] (by decide)).1,
   (claim_C5 fetchC5 [] [] [(["u1", "u2"], [true, false])] (by decide)).2.1⟩

end RentScrape
